import Mathlib

/-!
Verification of the `Number` polymorphic numeric value type (my_r_num,
src/lib.rs).

The Rust source is shallowly embedded below.  IEEE-754 binary64/binary32
floating point is modelled exactly: a float datum is either a signed zero,
a nonzero finite value (carried as the exact rational number it denotes),
a signed infinity, or NaN; every operation that rounds goes through
`roundFl`, a computable round-to-nearest, ties-to-even rounding of a
rational into a given format, with overflow to signed infinity and gradual
underflow to signed zero.  Rationals are carried as unreduced
numerator/denominator pairs (`Q`, denominator kept positive by
construction) so that the kernel can evaluate everything; all semantic
comparisons on them are value comparisons by cross-multiplication.
Machine integers are carried as `Int` with explicit range conditions;
Rust integer operations that can panic (`/` and `%` at `i64::MIN, -1`)
are embedded as `Option`-returning functions where `none` is the panic.
-/

set_option maxRecDepth 10000

/-- An unreduced rational: numerator over (positive, by construction)
denominator. -/
structure Q where
  num : ℤ
  den : ℤ
deriving DecidableEq

/-- The rational denoted by an integer. -/
def Qofi (v : ℤ) : Q := ⟨v, 1⟩

/-- Value equality of rationals (cross multiplication; denominators positive). -/
def qeqb (a b : Q) : Bool := decide (a.num * b.den = b.num * a.den)

/-- Value order of rationals (cross multiplication; denominators positive). -/
def qltb (a b : Q) : Bool := decide (a.num * b.den < b.num * a.den)

/-- Addition of rationals (no reduction). -/
def qadd (a b : Q) : Q := ⟨a.num * b.den + b.num * a.den, a.den * b.den⟩

/-- Negation of a rational. -/
def qneg (a : Q) : Q := ⟨-a.num, a.den⟩

/-- Subtraction of rationals. -/
def qsub (a b : Q) : Q := qadd a (qneg b)

/-- Multiplication of rationals (no reduction). -/
def qmul (a b : Q) : Q := ⟨a.num * b.num, a.den * b.den⟩

/-- Division of rationals, keeping the denominator positive (the divisor is
nonzero wherever this is used). -/
def qdiv (a b : Q) : Q :=
  if b.num < 0 then ⟨-(a.num * b.den), a.den * -b.num⟩ else ⟨a.num * b.den, a.den * b.num⟩

/-- Absolute value of a rational. -/
def qabs (a : Q) : Q := ⟨|a.num|, a.den⟩

/-- Floor of a rational (floor division; denominator positive). -/
def qfloor (a : Q) : ℤ := Int.fdiv a.num a.den

/-- Truncation of a rational toward zero. -/
def qtrunc (a : Q) : ℤ := if 0 ≤ a.num then qfloor a else -qfloor (qneg a)

/-- The integer `2 ^ n`, computed by squaring (log-depth, so reduction
stays shallow even for large exponents). -/
def ipow2 : ℕ → ℕ → ℤ
  | 0, _ => 1
  | f + 1, n =>
    if n = 0 then 1
    else
      let h := ipow2 f (n / 2)
      if n % 2 = 0 then h * h else 2 * (h * h)

/-- The integer `2 ^ n`. -/
def pw2 (n : ℕ) : ℤ := ipow2 64 n

/-- The rational `2 ^ k` for an integer `k`. -/
def q2pow (k : ℤ) : Q := if 0 ≤ k then ⟨pw2 k.toNat, 1⟩ else ⟨1, pw2 (-k).toNat⟩

/-- Doubling search (small structural fuel, kernel-evaluable): given
`t = 2^p` with `aq ≥ 1`, returns a `p` with `aq < 2^p` by repeated
squaring. -/
def pow2Above : ℕ → Q → Q → ℤ → ℤ
  | 0, _, _, p => p
  | f + 1, aq, t, p => if qltb aq t then p else pow2Above f aq (qmul t t) (2 * p)

/-- Doubling search: given `t = 2^(-p)` with `0 < aq < 1`, returns a `p`
with `2^(-p) ≤ aq` by repeated squaring. -/
def pow2Below : ℕ → Q → Q → ℤ → ℤ
  | 0, _, _, p => p
  | f + 1, aq, t, p => if qltb aq t then pow2Below f aq (qmul t t) (2 * p) else p

/-- Binary search for the binade exponent: maintains `2^lo ≤ aq < 2^hi`. -/
def qexpSearch : ℕ → Q → ℤ → ℤ → ℤ
  | 0, _, lo, _ => lo
  | f + 1, aq, lo, hi =>
    if hi - lo ≤ 1 then lo
    else
      let mid := (lo + hi) / 2
      if qltb aq (q2pow mid) then qexpSearch f aq lo mid else qexpSearch f aq mid hi

/-- The binade exponent of a nonzero rational: the `e` with
`2^e ≤ |q| < 2^(e+1)`. -/
def qexp (q : Q) : ℤ :=
  let aq := qabs q
  if qltb aq ⟨1, 1⟩ then
    let p := pow2Below 64 aq ⟨1, 2⟩ 1
    qexpSearch 96 aq (-p) 0
  else
    let p := pow2Above 64 aq ⟨2, 1⟩ 1
    qexpSearch 96 aq 0 p

/-- Strip factors of two: rewrites `m * 2^k` with `m` odd (small structural
fuel; the values fed in have `|m| ≤ 2^53`). -/
def oddify : ℕ → ℤ → ℤ → ℤ × ℤ
  | 0, m, k => (m, k)
  | f + 1, m, k => if m % 2 = 0 then oddify f (m / 2) (k + 1) else (m, k)

/-- The canonical representation of `m * 2^k` as a `Q` (numerator odd times
a power of two, or odd numerator over a power-of-two denominator), so that
structural equality of rounded values is value equality. -/
def mk2 (m k : ℤ) : Q := if 0 ≤ k then ⟨m * pw2 k.toNat, 1⟩ else ⟨m, pw2 (-k).toNat⟩

/-- Round a rational to an integer multiple of `2^k`, ties to even,
returning the canonical representation. -/
def rndQuantum (q : Q) (k : ℤ) : Q :=
  let s := qmul q (q2pow (-k))
  let n : ℤ := qfloor s
  let fr := qsub s (Qofi n)
  let m : ℤ :=
    if qltb fr ⟨1, 2⟩ then n
    else if qltb ⟨1, 2⟩ fr then n + 1
    else if n % 2 = 0 then n else n + 1
  if m = 0 then ⟨0, 1⟩
  else
    let mk := oddify 64 m k
    mk2 mk.1 mk.2

/-- An IEEE binary floating-point format: significand precision in bits,
minimum normal and maximum exponents. -/
structure FpFmt where
  prec : ℕ
  emin : ℤ
  emax : ℤ

/-- Largest finite magnitude of a format. -/
def FpFmt.maxFinite (f : FpFmt) : Q :=
  ⟨(pw2 f.prec - 1) * pw2 (f.emax - (f.prec : ℤ) + 1).toNat, 1⟩

/-- IEEE binary64 (Rust `f64`). -/
def f64fmt : FpFmt := ⟨53, -1022, 1023⟩

/-- IEEE binary32 (Rust `f32`). -/
def f32fmt : FpFmt := ⟨24, -126, 127⟩

/-- A floating-point datum: signed zero, nonzero finite value (exact
rational), signed infinity, or NaN.  `neg = true` means the sign bit is
set. -/
inductive Fl where
  | zero (neg : Bool)
  | finite (q : Q)
  | inf (neg : Bool)
  | nan
deriving DecidableEq

/-- Round-to-nearest-even of an exact rational into format `f`, with
overflow to signed infinity and gradual underflow to signed zero. -/
def roundFl (f : FpFmt) (q : Q) : Fl :=
  if q.num = 0 then .zero false
  else
    let s := decide (q.num < 0)
    let e := qexp q
    let k := max (e - (f.prec : ℤ) + 1) (f.emin - (f.prec : ℤ) + 1)
    let r := rndQuantum q k
    if r.num = 0 then .zero s
    else if qltb f.maxFinite (qabs r) then .inf s
    else .finite r

/-- Is this float datum NaN? -/
def Fl.isNanB : Fl → Bool
  | .nan => true
  | _ => false

/-- Is this float datum an infinity? -/
def Fl.isInfB : Fl → Bool
  | .inf _ => true
  | _ => false

/-- Is this float datum finite (a zero or a nonzero finite value)? -/
def Fl.isFiniteB : Fl → Bool
  | .zero _ => true
  | .finite _ => true
  | _ => false

/-- Is this float datum a (signed) zero? -/
def Fl.isZeroB : Fl → Bool
  | .zero _ => true
  | _ => false

/-- The sign bit of a float datum (for NaN we never consult it). -/
def Fl.signB : Fl → Bool
  | .zero s => s
  | .inf s => s
  | .finite q => decide (q.num < 0)
  | .nan => false

/-- IEEE negation: flips the sign bit. -/
def Fl.fneg : Fl → Fl
  | .zero s => .zero (!s)
  | .inf s => .inf (!s)
  | .finite q => .finite (qneg q)
  | .nan => .nan

/-- IEEE absolute value: clears the sign bit. -/
def Fl.fabs : Fl → Fl
  | .zero _ => .zero false
  | .inf _ => .inf false
  | .finite q => .finite (qabs q)
  | .nan => .nan

/-- IEEE addition in format `f` (round to nearest, ties to even; exact
cancellation gives `+0`). -/
def fadd (f : FpFmt) : Fl → Fl → Fl
  | .nan, _ => .nan
  | _, .nan => .nan
  | .inf s, .inf t => if s = t then .inf s else .nan
  | .inf s, _ => .inf s
  | _, .inf t => .inf t
  | .zero s, .zero t => if s = t then .zero s else .zero false
  | .zero _, .finite q => .finite q
  | .finite q, .zero _ => .finite q
  | .finite p, .finite q => roundFl f (qadd p q)

/-- IEEE subtraction: `a - b = a + (-b)`. -/
def fsub (f : FpFmt) (a b : Fl) : Fl := fadd f a b.fneg

/-- IEEE multiplication in format `f`. -/
def fmul (f : FpFmt) : Fl → Fl → Fl
  | .nan, _ => .nan
  | _, .nan => .nan
  | .inf s, .inf t => .inf (xor s t)
  | .inf _, .zero _ => .nan
  | .zero _, .inf _ => .nan
  | .inf s, .finite q => .inf (xor s (decide (q.num < 0)))
  | .finite q, .inf t => .inf (xor (decide (q.num < 0)) t)
  | .zero s, .zero t => .zero (xor s t)
  | .zero s, .finite q => .zero (xor s (decide (q.num < 0)))
  | .finite q, .zero t => .zero (xor (decide (q.num < 0)) t)
  | .finite p, .finite q => roundFl f (qmul p q)

/-- IEEE division in format `f` (`x / ±0 = ±∞`, `±0 / ±0 = NaN`,
`±∞ / ±∞ = NaN`). -/
def fdiv (f : FpFmt) : Fl → Fl → Fl
  | .nan, _ => .nan
  | _, .nan => .nan
  | .inf _, .inf _ => .nan
  | .zero _, .zero _ => .nan
  | .inf s, .zero t => .inf (xor s t)
  | .inf s, .finite q => .inf (xor s (decide (q.num < 0)))
  | .zero s, .inf t => .zero (xor s t)
  | .zero s, .finite q => .zero (xor s (decide (q.num < 0)))
  | .finite q, .inf t => .zero (xor (decide (q.num < 0)) t)
  | .finite q, .zero t => .inf (xor (decide (q.num < 0)) t)
  | .finite p, .finite q => roundFl f (qdiv p q)

/-- Rust `%` on floats (C `fmod`): `r = a - b * trunc(a / b)`, computed
exactly (the result of `fmod` on floats is always exactly representable);
the result takes the sign of the dividend, `x % ±0` and `±∞ % y` are NaN,
`x % ±∞ = x` for finite `x`. -/
def frem (f : FpFmt) : Fl → Fl → Fl
  | .nan, _ => .nan
  | _, .nan => .nan
  | .inf _, _ => .nan
  | _, .zero _ => .nan
  | .zero s, _ => .zero s
  | .finite q, .inf _ => .finite q
  | .finite p, .finite q =>
    let r := qsub p (qmul q (Qofi (qtrunc (qdiv p q))))
    if r.num = 0 then .zero (decide (p.num < 0)) else roundFl f r

/-- IEEE partial comparison (Rust `f64::partial_cmp`): `none` iff either
operand is NaN; zeros compare equal regardless of sign. -/
def fcmp : Fl → Fl → Option Ordering
  | .nan, _ => none
  | _, .nan => none
  | .inf s, .inf t => some (if s = t then .eq else if s then .lt else .gt)
  | .inf s, _ => some (if s then .lt else .gt)
  | _, .inf t => some (if t then .gt else .lt)
  | .zero _, .zero _ => some .eq
  | .zero _, .finite q => some (if 0 < q.num then .lt else if q.num < 0 then .gt else .eq)
  | .finite q, .zero _ => some (if q.num < 0 then .lt else if 0 < q.num then .gt else .eq)
  | .finite p, .finite q =>
    some (if qltb p q then .lt else if qltb q p then .gt else .eq)

/-- Rust `==` on floats: true exactly when `partial_cmp` yields `Equal`. -/
def feq (a b : Fl) : Bool := fcmp a b == some .eq

/-- Rust `<` on floats: true exactly when `partial_cmp` yields `Less`. -/
def fltB (a b : Fl) : Bool := fcmp a b == some .lt

/-- Rust `as`-cast from `i64` to `f64`: exact conversion followed by
round-to-nearest (exact for magnitudes below `2^53`). -/
def intToF64 (v : ℤ) : Fl := roundFl f64fmt (Qofi v)

/-- Rust `as`-cast from `f64` to `f32`: round to nearest, ties to even,
overflow to the same-signed infinity; NaN, infinities and zeros keep
their class and sign. -/
def f64toF32 : Fl → Fl
  | .zero s => .zero s
  | .inf s => .inf s
  | .nan => .nan
  | .finite q => roundFl f32fmt q

/-- Rust `f64::EPSILON` (`2^-52`). -/
def f64EPS : Fl := .finite ⟨1, 4503599627370496⟩


/-- `i64::MIN`. -/
def i64min : ℤ := -9223372036854775808

/-- `i64::MAX`. -/
def i64max : ℤ := 9223372036854775807

/-- Does an integer fit the signed 64-bit range? -/
def inI64 (v : ℤ) : Prop := i64min ≤ v ∧ v ≤ i64max

instance (v : ℤ) : Decidable (inI64 v) := by unfold inI64; infer_instance

/-- Rust `%` on `i64` (truncated remainder), `none` for the panicking
cases: division by zero and the overflowing `i64::MIN % -1`. -/
def i64remChk (x y : ℤ) : Option ℤ :=
  if y = 0 ∨ (x = i64min ∧ y = -1) then none else some (Int.tmod x y)

/-- Rust `/` on `i64` (truncated division), `none` for the panicking
cases: division by zero and the overflowing `i64::MIN / -1`. -/
def i64divChk (x y : ℤ) : Option ℤ :=
  if y = 0 ∨ (x = i64min ∧ y = -1) then none else some (Int.tdiv x y)

/-- The `Number` enum of src/lib.rs: integer payloads are carried as `Int`
(with their width ranges stated as side conditions where needed), float
payloads as the exact `Fl` model. -/
inductive Number where
  | PositiveInfinity
  | NegativeInfinity
  | NaN
  | Integer64 (v : ℤ)
  | Integer32 (v : ℤ)
  | Integer16 (v : ℤ)
  | Integer8 (v : ℤ)
  | Float64 (v : Fl)
  | Float32 (v : Fl)
deriving DecidableEq

namespace Number

/-- `Number::from_int`: narrowest integer variant whose range contains the
value (lib.rs lines 20-30). -/
def from_int (value : ℤ) : Number :=
  if -128 ≤ value ∧ value ≤ 127 then .Integer8 value
  else if -32768 ≤ value ∧ value ≤ 32767 then .Integer16 value
  else if -2147483648 ≤ value ∧ value ≤ 2147483647 then .Integer32 value
  else .Integer64 value

/-- `Number::from_float` (lib.rs lines 31-38): narrow to `Float32` when the
round-trip through `f32` differs from the value by less than
`f64::EPSILON` and the value is finite. -/
def from_float (value : Fl) : Number :=
  let as_f32 := f64toF32 value
  if fltB (Fl.fabs (fsub f64fmt as_f32 value)) f64EPS && value.isFiniteB
  then .Float32 as_f32
  else .Float64 value

/-- `Number::to_f64` (lib.rs lines 67-79). -/
def to_f64 : Number → Fl
  | .PositiveInfinity => .inf false
  | .NegativeInfinity => .inf true
  | .NaN => .nan
  | .Integer64 v => intToF64 v
  | .Integer32 v => intToF64 v
  | .Integer16 v => intToF64 v
  | .Integer8 v => intToF64 v
  | .Float64 v => v
  | .Float32 v => v

/-- `Number::is_nan` (lib.rs lines 80-87). -/
def is_nan : Number → Bool
  | .NaN => true
  | .Float64 v => v.isNanB
  | .Float32 v => v.isNanB
  | _ => false

/-- `Number::is_infinite` (lib.rs lines 88-95). -/
def is_infinite : Number → Bool
  | .PositiveInfinity => true
  | .NegativeInfinity => true
  | .Float64 v => v.isInfB
  | .Float32 v => v.isInfB
  | _ => false

/-- `Number::is_finite` (lib.rs lines 96-98). -/
def is_finite (n : Number) : Bool := !n.is_nan && !n.is_infinite

/-- `Number::from_f64` (lib.rs lines 99-109): total constructor mapping NaN
and the infinities to the special variants. -/
def from_f64 (value : Fl) : Number :=
  if value.isNanB then .NaN
  else if value = .inf false then .PositiveInfinity
  else if value = .inf true then .NegativeInfinity
  else .Float64 value

/-- `PartialOrd::partial_cmp` for `Number` (lib.rs lines 126-135). -/
def pcmp (a b : Number) : Option Ordering :=
  if a.is_nan || b.is_nan then none
  else fcmp a.to_f64 b.to_f64

/-- `PartialEq::eq` for `Number` (lib.rs lines 136-143). -/
def beq (a b : Number) : Bool :=
  if a.is_nan || b.is_nan then false
  else feq a.to_f64 b.to_f64

/-- Rust `<` on `Number` (derived from `partial_cmp`). -/
def ltB (a b : Number) : Bool := pcmp a b == some .lt

/-- Rust `>` on `Number` (derived from `partial_cmp`). -/
def gtB (a b : Number) : Bool := pcmp a b == some .gt

/-- The widened `i64` payload of an integer variant (the `a_val`/`b_val`
extraction of the generic integer-pair match arms). -/
def intVal : Number → Option ℤ
  | .Integer64 v => some v
  | .Integer32 v => some v
  | .Integer16 v => some v
  | .Integer8 v => some v
  | _ => none

/-- `Add::add` for `Number` (lib.rs lines 144-205). -/
def add (a b : Number) : Number :=
  if a.is_nan || b.is_nan then .NaN
  else match a, b with
  | .PositiveInfinity, .NegativeInfinity => .NaN
  | .NegativeInfinity, .PositiveInfinity => .NaN
  | .PositiveInfinity, _ => .PositiveInfinity
  | _, .PositiveInfinity => .PositiveInfinity
  | .NegativeInfinity, _ => .NegativeInfinity
  | _, .NegativeInfinity => .NegativeInfinity
  | .Integer8 x, .Integer8 y => from_int (x + y)
  | .Integer16 x, .Integer16 y => from_int (x + y)
  | .Integer32 x, .Integer32 y => from_int (x + y)
  | .Integer64 x, .Integer64 y =>
    if inI64 (x + y) then .Integer64 (x + y)
    else .Float64 (fadd f64fmt (intToF64 x) (intToF64 y))
  | a, b =>
    match a.intVal, b.intVal with
    | some x, some y =>
      if inI64 (x + y) then from_int (x + y)
      else .Float64 (fadd f64fmt (intToF64 x) (intToF64 y))
    | _, _ => from_float (fadd f64fmt a.to_f64 b.to_f64)

/-- `Sub::sub` for `Number` (lib.rs lines 206-255). -/
def sub (a b : Number) : Number :=
  if a.is_nan || b.is_nan then .NaN
  else match a, b with
  | .PositiveInfinity, .PositiveInfinity => .NaN
  | .NegativeInfinity, .NegativeInfinity => .NaN
  | .PositiveInfinity, _ => .PositiveInfinity
  | .NegativeInfinity, _ => .NegativeInfinity
  | _, .PositiveInfinity => .NegativeInfinity
  | _, .NegativeInfinity => .PositiveInfinity
  | a, b =>
    match a.intVal, b.intVal with
    | some x, some y =>
      if inI64 (x - y) then from_int (x - y)
      else .Float64 (fsub f64fmt (intToF64 x) (intToF64 y))
    | _, _ => from_float (fsub f64fmt a.to_f64 b.to_f64)

/-- `Mul::mul` for `Number` (lib.rs lines 256-308). -/
def mul (a b : Number) : Number :=
  if a.is_nan || b.is_nan then .NaN
  else
    let self_f64 := a.to_f64
    let rhs_f64 := b.to_f64
    if (a.is_infinite && feq rhs_f64 (.zero false)) ||
       (b.is_infinite && feq self_f64 (.zero false)) then .NaN
    else if a.is_infinite || b.is_infinite then from_f64 (fmul f64fmt self_f64 rhs_f64)
    else match a.intVal, b.intVal with
    | some x, some y =>
      if inI64 (x * y) then from_int (x * y)
      else .Float64 (fmul f64fmt (intToF64 x) (intToF64 y))
    | _, _ => from_float (fmul f64fmt self_f64 rhs_f64)

/-- `Div::div` for `Number` (lib.rs lines 309-361); `none` is the Rust
panic of `i64::MIN % -1` / `i64::MIN / -1` inside the integer branch. -/
def div (a b : Number) : Option Number :=
  if a.is_nan || b.is_nan then some .NaN
  else
    let self_f64 := a.to_f64
    let rhs_f64 := b.to_f64
    if feq rhs_f64 (.zero false) && feq self_f64 (.zero false) then some .NaN
    else if a.is_infinite && b.is_infinite then some .NaN
    else match a.intVal, b.intVal with
    | some x, some y =>
      if y ≠ 0 then
        match i64remChk x y with
        | none => none
        | some r =>
          if r = 0 then (i64divChk x y).map from_int
          else some (from_float (fdiv f64fmt (intToF64 x) (intToF64 y)))
      else some (from_float (fdiv f64fmt (intToF64 x) (intToF64 y)))
    | _, _ => some (from_float (fdiv f64fmt self_f64 rhs_f64))

/-- `RemAssign::rem_assign` for `Number` (lib.rs lines 382-432), as the
function from the two operands to the value assigned to the left one;
`none` is the Rust panic of `i64::MIN % -1` in the `Integer64` arm. -/
def rem_assign (a b : Number) : Option Number :=
  if a.is_nan || b.is_nan then some .NaN
  else if a.is_infinite || b.is_infinite then some .NaN
  else match a, b with
  | .Integer8 x, .Integer8 y =>
    if y = 0 then some .NaN else (i64remChk x y).map from_int
  | .Integer16 x, .Integer16 y =>
    if y = 0 then some .NaN else (i64remChk x y).map from_int
  | .Integer32 x, .Integer32 y =>
    if y = 0 then some .NaN else (i64remChk x y).map from_int
  | .Integer64 x, .Integer64 y =>
    if y = 0 then some .NaN else (i64remChk x y).map from_int
  | a, b =>
    let a_f := a.to_f64
    let b_f := b.to_f64
    if feq b_f (.zero false) then some .NaN
    else some (from_float (frem f64fmt a_f b_f))

/-- The two's-complement reinterpretation Rust performs for `value as i64`
on a `u64` value. -/
def u64AsI64 (v : ℤ) : ℤ :=
  let m := v % 18446744073709551616
  if m < 9223372036854775808 then m else m - 18446744073709551616

/-- `From<u64> for Number` (lib.rs lines 469-473): `Number::from_int(value as i64)`. -/
def fromU64 (value : ℤ) : Number := from_int (u64AsI64 value)

end Number


/-- The whitespace predicate of `str::trim` (the ASCII whitespace cases;
the inputs of interest contain no exotic Unicode whitespace). -/
def isWs (c : Char) : Bool :=
  c = ' ' || c = '\t' || c = '\n' || c = '\r' || c = '\u000B' || c = '\u000C'

/-- Leading-whitespace trim. -/
def trimL (l : List Char) : List Char := l.dropWhile isWs

/-- Trailing-whitespace trim. -/
def trimR (l : List Char) : List Char := (l.reverse.dropWhile isWs).reverse

/-- `str::trim`: strip leading and trailing whitespace. -/
def trimChars (l : List Char) : List Char := trimR (trimL l)

/-- `str::to_lowercase` restricted to ASCII letters (the token vocabulary
of `parse` is ASCII). -/
def lowerC (c : Char) : Char :=
  if 'A' ≤ c ∧ c ≤ 'Z' then Char.ofNat (c.toNat + 32) else c

/-- Lowercasing of a character list. -/
def lowerStr (l : List Char) : List Char := l.map lowerC

/-- ASCII decimal digit test. -/
def isDigit (c : Char) : Bool := '0' ≤ c && c ≤ '9'

/-- Value of an ASCII digit. -/
def digitVal (c : Char) : ℕ := c.toNat - 48

/-- Value of a digit string, most significant first. -/
def digitsVal (l : List Char) : ℕ := l.foldl (fun acc c => acc * 10 + digitVal c) 0

/-- Strip one optional leading sign; `true` means negative. -/
def parseSign : List Char → Bool × List Char
  | '+' :: t => (false, t)
  | '-' :: t => (true, t)
  | l => (false, l)

/-- `str::parse::<i64>`: optional sign, one or more digits, nothing else,
result in signed 64-bit range; no whitespace or other characters. -/
def parseI64 (l : List Char) : Option ℤ :=
  let st := parseSign l
  if st.2 ≠ [] ∧ st.2.all isDigit then
    let v : ℤ := if st.1 then -(digitsVal st.2 : ℤ) else (digitsVal st.2 : ℤ)
    if inI64 v then some v else none
  else none

/-- Split a character list at the first `e`/`E` (the exponent marker of the
float grammar). -/
def splitExp : List Char → List Char × Option (List Char)
  | [] => ([], none)
  | c :: t =>
    if c = 'e' ∨ c = 'E' then ([], some t)
    else
      let r := splitExp t
      (c :: r.1, r.2)

/-- Split a character list at the first `.`. -/
def splitDot : List Char → List Char × Option (List Char)
  | [] => ([], none)
  | c :: t =>
    if c = '.' then ([], some t)
    else
      let r := splitDot t
      (c :: r.1, r.2)

/-- The mantissa of the `f64` grammar: `Count '.'? Count?` or `'.' Count`,
as an exact non-negative rational. -/
def parseMantissa (l : List Char) : Option Q :=
  match splitDot l with
  | (ip, none) =>
    if ip ≠ [] ∧ ip.all isDigit then some ⟨(digitsVal ip : ℤ), 1⟩ else none
  | (ip, some fp) =>
    if ip.all isDigit ∧ fp.all isDigit ∧ (ip ≠ [] ∨ fp ≠ []) then
      some ⟨(digitsVal ip : ℤ) * (10 : ℤ) ^ fp.length + (digitsVal fp : ℤ),
            (10 : ℤ) ^ fp.length⟩
    else none

/-- The unsigned decimal of the `f64` grammar (`Number ::= mantissa Exp?`,
`Exp ::= (e|E) Sign? Count`), as an exact non-negative rational. -/
def parseDecimal (l : List Char) : Option Q :=
  match splitExp l with
  | (mant, none) => parseMantissa mant
  | (mant, some ex) =>
    match parseMantissa mant with
    | none => none
    | some m =>
      let st := parseSign ex
      if st.2 ≠ [] ∧ st.2.all isDigit then
        let e := digitsVal st.2
        some (if st.1 then qmul m ⟨1, (10 : ℤ) ^ e⟩ else qmul m ⟨(10 : ℤ) ^ e, 1⟩)
      else none

/-- `str::parse::<f64>` over characters: the documented grammar
`Sign? ( inf | infinity | nan | Number )` (keywords case-insensitive),
numeric values correctly rounded to binary64, overflow to the signed
infinity, underflow toward the signed zero. -/
def parseF64Chars (l : List Char) : Option Fl :=
  let st := parseSign l
  let low := lowerStr st.2
  if low = ['i', 'n', 'f'] ∨ low = ['i', 'n', 'f', 'i', 'n', 'i', 't', 'y'] then
    some (.inf st.1)
  else if low = ['n', 'a', 'n'] then some .nan
  else match parseDecimal st.2 with
    | some q =>
      if q.num = 0 then some (.zero st.1)
      else some (roundFl f64fmt (if st.1 then qneg q else q))
    | none => none

/-- The positive special tokens of `Number::parse`. -/
def posTokens : List (List Char) :=
  [['i', 'n', 'f'], ['i', 'n', 'f', 'i', 'n', 'i', 't', 'y'],
   ['+', 'i', 'n', 'f'], ['+', 'i', 'n', 'f', 'i', 'n', 'i', 't', 'y']]

/-- The negative special tokens of `Number::parse`. -/
def negTokens : List (List Char) :=
  [['-', 'i', 'n', 'f'], ['-', 'i', 'n', 'f', 'i', 'n', 'i', 't', 'y']]

/-- `Number::parse` (lib.rs lines 39-53): the special-token match works on
the trimmed, lowercased text, while the numeric fallbacks parse the
original string; the error carries the offending text (the exact message
wording of the source is abstracted to an English one). -/
def parseChars (l : List Char) : Except String Number :=
  let t := lowerStr (trimChars l)
  if t ∈ posTokens then .ok .PositiveInfinity
  else if t ∈ negTokens then .ok .NegativeInfinity
  else if t = ['n', 'a', 'n'] then .ok .NaN
  else match parseI64 l with
    | some v => .ok (Number.from_int v)
    | none =>
      match parseF64Chars l with
      | some f => .ok (Number.from_float f)
      | none => .error ("cannot parse as number: " ++ String.mk l)

instance : DecidableEq (Except String Number)
  | .error a, .error b =>
    if h : a = b then .isTrue (by rw [h]) else .isFalse (by simp [h])
  | .error _, .ok _ => .isFalse (by simp)
  | .ok _, .error _ => .isFalse (by simp)
  | .ok a, .ok b =>
    if h : a = b then .isTrue (by rw [h]) else .isFalse (by simp [h])


namespace Number

/-- Well-formedness: integer payloads lie in the range of their variant
(what Rust enforces by construction through the fixed-width types). -/
def wfB : Number → Bool
  | .Integer8 v => decide (-128 ≤ v ∧ v ≤ 127)
  | .Integer16 v => decide (-32768 ≤ v ∧ v ≤ 32767)
  | .Integer32 v => decide (-2147483648 ≤ v ∧ v ≤ 2147483647)
  | .Integer64 v => decide (inI64 v)
  | _ => true

/-- Is the value one of the four integer variants? -/
def isIntVar : Number → Bool
  | .Integer8 _ => true
  | .Integer16 _ => true
  | .Integer32 _ => true
  | .Integer64 _ => true
  | _ => false

/-- Is the value an integer variant of width at most 32 bits? -/
def isSmallInt : Number → Bool
  | .Integer8 _ => true
  | .Integer16 _ => true
  | .Integer32 _ => true
  | _ => false

/-- The bit width of an integer variant (0 for the others). -/
def widthOf : Number → ℕ
  | .Integer8 _ => 8
  | .Integer16 _ => 16
  | .Integer32 _ => 32
  | .Integer64 _ => 64
  | _ => 0

/-- Is the value one of the three representation-free special variants? -/
def isSpecial : Number → Bool
  | .PositiveInfinity => true
  | .NegativeInfinity => true
  | .NaN => true
  | _ => false

/-- Is the value a zero-valued operand: an integer variant holding 0, or a
float variant holding a (signed) IEEE zero? -/
def zeroValued : Number → Bool
  | .Integer8 v => v == 0
  | .Integer16 v => v == 0
  | .Integer32 v => v == 0
  | .Integer64 v => v == 0
  | .Float64 (.zero _) => true
  | .Float32 (.zero _) => true
  | _ => false

/-- Does a signed integer of width `w` bits represent `m`? -/
def fits (w : ℕ) (m : ℤ) : Prop := -(2 ^ (w - 1)) ≤ m ∧ m ≤ 2 ^ (w - 1) - 1

instance (w : ℕ) (m : ℤ) : Decidable (fits w m) := by unfold fits; infer_instance

end Number

/-- Is a (trimmed, lowercased) text one of the special tokens of
`Number::parse`? -/
def specialTok (t : List Char) : Bool :=
  decide (t ∈ posTokens) || decide (t ∈ negTokens) || decide (t = ['n', 'a', 'n'])

namespace Number

theorem from_int_intVal (v : ℤ) : (from_int v).intVal = some v := by
  unfold from_int
  split <;> try rfl
  split <;> try rfl
  split <;> rfl

theorem from_int_isInt (v : ℤ) : (from_int v).isIntVar = true := by
  unfold from_int
  split <;> try rfl
  split <;> try rfl
  split <;> rfl

theorem from_int_finite (v : ℤ) : (from_int v).is_finite = true := by
  unfold from_int
  split <;> try rfl
  split <;> try rfl
  split <;> rfl

theorem roundFl_ne_nan (f : FpFmt) (q : Q) : roundFl f q ≠ .nan := by
  unfold roundFl
  dsimp only
  split
  · exact fun h => Fl.noConfusion h
  · split
    · exact fun h => Fl.noConfusion h
    · split <;> exact fun h => Fl.noConfusion h

theorem intToF64_ne_nan (v : ℤ) : intToF64 v ≠ .nan := roundFl_ne_nan _ _

theorem to_f64_ne_nan (a : Number) (h : a.is_nan = false) : a.to_f64 ≠ .nan := by
  cases a <;> simp_all [is_nan, to_f64, Fl.isNanB] <;>
    first
    | exact intToF64_ne_nan _
    | (rename_i v; cases v <;> simp_all [Fl.isNanB])

end Number

/-- C1: the claim says no arithmetic operation on `Number` can fail, in
particular `Integer64(i64::MIN) / Integer64(-1)` and
`Integer64(i64::MIN) %= Integer64(-1)`.  In the code both reach the Rust
`%` operator on `i64` at `(i64::MIN, -1)`, which is an overflow that
aborts the program in every build mode; in the embedding that abort is
`none`, and this theorem evaluates both operations at exactly that input. -/
theorem c1_div_rem_abort :
    Number.div (.Integer64 i64min) (.Integer64 (-1)) = none ∧
    Number.rem_assign (.Integer64 i64min) (.Integer64 (-1)) = none :=
  ⟨by decide, by decide⟩

/-- C6: equality and ordering are partial with IEEE NaN semantics and are
widening-based across variants: `eq` is true exactly when neither operand
is NaN and the 64-bit-float widenings compare equal, `partial_cmp` is the
float comparison of the widenings guarded by the NaN check, NaN (either
the variant or a NaN float payload) is unequal and unordered with
everything including itself, and cross-variant instances such as
`Integer8(5) == Float64(5.0)` and `from_int(5) == from_float(5.0)` hold. -/
theorem c6_partial_eq_ord :
    (∀ a b : Number, Number.beq a b =
        (!a.is_nan && !b.is_nan && feq a.to_f64 b.to_f64)) ∧
    (∀ a b : Number, Number.pcmp a b =
        (if a.is_nan || b.is_nan then none else fcmp a.to_f64 b.to_f64)) ∧
    (∀ b : Number, Number.beq .NaN b = false ∧ Number.ltB .NaN b = false ∧
        Number.gtB .NaN b = false ∧ Number.beq b .NaN = false) ∧
    (∀ b : Number, Number.beq (.Float64 .nan) b = false ∧
        Number.ltB (.Float64 .nan) b = false ∧
        Number.gtB (.Float64 .nan) b = false) ∧
    Number.beq .NaN .NaN = false ∧
    Number.beq (.Integer8 5) (.Float64 (.finite ⟨5, 1⟩)) = true ∧
    Number.beq (.from_int 5) (.from_float (.finite ⟨5, 1⟩)) = true := by
  refine ⟨?_, ?_, ?_, ?_, by decide, by decide, by decide⟩
  · intro a b
    unfold Number.beq
    cases ha : a.is_nan <;> cases hb : b.is_nan <;> simp [ha, hb]
  · intro a b
    rfl
  · intro b
    refine ⟨rfl, rfl, rfl, ?_⟩
    unfold Number.beq
    simp [Number.is_nan]
  · intro b
    exact ⟨rfl, rfl, rfl⟩

/-- C7: for every `m` in signed 64-bit range, `from_int m` holds exactly
`m`, in the narrowest of the four integer widths whose range contains `m`,
and `to_f64` of the result is the `i64`-to-`f64` cast of `m`. -/
theorem c7_from_int_narrowest :
    ∀ m : ℤ, inI64 m →
      (Number.from_int m).intVal = some m ∧
      Number.fits (Number.from_int m).widthOf m ∧
      (∀ w, (w = 8 ∨ w = 16 ∨ w = 32 ∨ w = 64) → Number.fits w m →
        (Number.from_int m).widthOf ≤ w) ∧
      (Number.from_int m).to_f64 = intToF64 m := by
  intro m hm
  unfold inI64 i64min i64max at hm
  unfold Number.from_int
  split
  · refine ⟨rfl, ?_, ?_, rfl⟩
    · simp only [Number.widthOf, Number.fits]
      norm_num
      omega
    · intro w hw _
      rcases hw with rfl | rfl | rfl | rfl <;> simp [Number.widthOf]
  · split
    · refine ⟨rfl, ?_, ?_, rfl⟩
      · simp only [Number.widthOf, Number.fits]
        norm_num
        omega
      · intro w hw hf
        simp only [Number.fits] at hf
        rcases hw with rfl | rfl | rfl | rfl <;>
          simp only [Number.widthOf] <;> norm_num at hf ⊢ <;> omega
    · split
      · refine ⟨rfl, ?_, ?_, rfl⟩
        · simp only [Number.widthOf, Number.fits]
          norm_num
          omega
        · intro w hw hf
          simp only [Number.fits] at hf
          rcases hw with rfl | rfl | rfl | rfl <;>
            simp only [Number.widthOf] <;> norm_num at hf ⊢ <;> omega
      · refine ⟨rfl, ?_, ?_, rfl⟩
        · simp only [Number.widthOf, Number.fits]
          norm_num
          omega
        · intro w hw hf
          simp only [Number.fits] at hf
          rcases hw with rfl | rfl | rfl | rfl <;>
            simp only [Number.widthOf] <;> norm_num at hf ⊢ <;> omega

/-- Witness for C7 at `m = 300`: the hypothesis holds and `from_int`
yields the `Integer16` payload 300 whose widening is the cast of 300. -/
theorem c7_witness :
    inI64 300 ∧ (Number.from_int 300).intVal = some 300 ∧
      (Number.from_int 300).to_f64 = intToF64 300 :=
  ⟨by decide, (c7_from_int_narrowest 300 (by decide)).1,
    (c7_from_int_narrowest 300 (by decide)).2.2.2⟩

/-- Product bound used for 32-bit-or-narrower operands: if both factors
have magnitude at most `2^31`, the product fits signed 64 bits. -/
theorem smallMulBound (x y : ℤ) (hx1 : -2147483648 ≤ x) (hx2 : x ≤ 2147483647)
    (hy1 : -2147483648 ≤ y) (hy2 : y ≤ 2147483647) : inI64 (x * y) := by
  unfold inI64 i64min i64max
  have h1 : |x| ≤ 2147483648 := by rw [abs_le]; omega
  have h2 : |y| ≤ 2147483648 := by rw [abs_le]; omega
  have h3 : |x * y| ≤ 2147483648 * 2147483648 := by
    rw [abs_mul]
    exact mul_le_mul h1 h2 (abs_nonneg _) (by norm_num)
  rw [abs_le] at h3
  omega

/-- C9: for every pair of integer-variant operands of width at most 32
bits, add, sub and mul are computed on 64-bit widenings that cannot
overflow, so the result is always `from_int` of the exact mathematical
result — an integer variant, never a float-backed `Number`. -/
theorem c9_small_int_closed :
    ∀ (a b : Number) (x y : ℤ), a.wfB = true → b.wfB = true →
      a.isSmallInt = true → b.isSmallInt = true →
      a.intVal = some x → b.intVal = some y →
      Number.add a b = Number.from_int (x + y) ∧
      Number.sub a b = Number.from_int (x - y) ∧
      Number.mul a b = Number.from_int (x * y) ∧
      (Number.add a b).isIntVar = true ∧
      (Number.sub a b).isIntVar = true ∧
      (Number.mul a b).isIntVar = true := by
  intro a b x y hwa hwb hsa hsb hxa hyb
  cases a <;> cases b <;> simp only [Number.isSmallInt] at hsa hsb <;>
    first
    | exact absurd hsa (Bool.false_ne_true)
    | exact absurd hsb (Bool.false_ne_true)
    | (rename_i xv yv
       simp only [Number.intVal, Option.some.injEq] at hxa hyb
       subst hxa
       subst hyb
       simp only [Number.wfB, decide_eq_true_eq] at hwa hwb
       obtain ⟨hx1, hx2⟩ := hwa
       obtain ⟨hy1, hy2⟩ := hwb
       have hadd : inI64 (xv + yv) := by unfold inI64 i64min i64max; omega
       have hsub : inI64 (xv - yv) := by unfold inI64 i64min i64max; omega
       have hmul : inI64 (xv * yv) :=
         smallMulBound xv yv (by omega) (by omega) (by omega) (by omega)
       refine ⟨?_, ?_, ?_, ?_, ?_, ?_⟩ <;>
         simp [Number.add, Number.sub, Number.mul, Number.intVal, Number.is_nan,
           Number.is_infinite, hadd, hsub, hmul, Number.from_int_isInt])

/-- Witness for C9 at `Integer8(7)` and `Integer32(5)`: the operations all
stay integral. -/
theorem c9_witness :
    Number.add (.Integer8 7) (.Integer32 5) = Number.from_int 12 ∧
      Number.mul (.Integer8 7) (.Integer32 5) = Number.from_int 35 ∧
      (Number.add (.Integer8 7) (.Integer32 5)).isIntVar = true := by
  have h := c9_small_int_closed (.Integer8 7) (.Integer32 5) 7 5
    (by decide) (by decide) (by decide) (by decide) (by decide) (by decide)
  exact ⟨h.1, h.2.2.1, h.2.2.2.1⟩

/-- C2 counterexample: the claim says an overflowing integer add is
normalized via `from_float` (so its variant is whichever `from_float`
selects).  At `Integer64(2^62) + Integer64(2^62)` the exact float result
`2^63` round-trips through `f32`, so `from_float` would select `Float32`,
but the code wraps the recomputed sum directly in `Float64`. -/
theorem c2_counterexample :
    Number.add (.Integer64 4611686018427387904) (.Integer64 4611686018427387904) =
      .Float64 (.finite ⟨9223372036854775808, 1⟩) ∧
    Number.from_float (.finite ⟨9223372036854775808, 1⟩) =
      .Float32 (.finite ⟨9223372036854775808, 1⟩) ∧
    Number.add (.Integer64 4611686018427387904) (.Integer64 4611686018427387904) ≠
      Number.from_float (.finite ⟨9223372036854775808, 1⟩) :=
  ⟨by decide, by decide, by decide⟩

/-- C2 amended: for every pair of integer-variant operands whose
widened-to-`i64` add/sub/mul overflows the signed 64-bit range, the result
is recomputed in 64-bit floating point on the casts of the widened
operands and wrapped directly as a `Float64` variant (not routed through
`from_float`); it is not an error and not wraparound, and
`Integer64(i64::MAX) + Integer64(1)` yields the float-backed value `2^63`
≈ 9.223372036854776e18. -/
theorem c2_overflow_promotes :
    (∀ (a b : Number) (x y : ℤ), a.wfB = true → b.wfB = true →
        a.intVal = some x → b.intVal = some y →
        (¬inI64 (x + y) →
          Number.add a b = .Float64 (fadd f64fmt (intToF64 x) (intToF64 y))) ∧
        (¬inI64 (x - y) →
          Number.sub a b = .Float64 (fsub f64fmt (intToF64 x) (intToF64 y))) ∧
        (¬inI64 (x * y) →
          Number.mul a b = .Float64 (fmul f64fmt (intToF64 x) (intToF64 y)))) ∧
    Number.add (.Integer64 i64max) (.Integer64 1) =
      .Float64 (.finite ⟨9223372036854775808, 1⟩) ∧
    (Number.add (.Integer64 i64max) (.Integer64 1)).isIntVar = false := by
  refine ⟨?_, by decide, by decide⟩
  intro a b x y hwa hwb hxa hyb
  cases a <;> cases b <;> simp only [Number.intVal] at hxa hyb <;>
    first
    | exact Option.noConfusion hxa
    | exact Option.noConfusion hyb
    | (rename_i xv yv
       simp only [Option.some.injEq] at hxa hyb
       subst hxa
       subst hyb
       simp only [Number.wfB, decide_eq_true_eq] at hwa hwb
       obtain ⟨hx1, hx2⟩ := hwa
       obtain ⟨hy1, hy2⟩ := hwb
       refine ⟨?_, ?_, ?_⟩ <;> intro hov <;>
         first
         | (exfalso
            unfold inI64 i64min i64max at hov
            omega)
         | simp [Number.add, Number.sub, Number.mul, Number.intVal, Number.is_nan,
             Number.is_infinite, hov])

/-- Witness for C2 at `Integer64(i64::MAX) + Integer64(1)`: the overflow
hypothesis holds and the overflowing sum is the `Float64`-wrapped float
recomputation. -/
theorem c2_witness :
    ¬inI64 (i64max + 1) ∧
      Number.add (.Integer64 i64max) (.Integer64 1) =
        .Float64 (fadd f64fmt (intToF64 i64max) (intToF64 1)) :=
  ⟨by decide,
    (c2_overflow_promotes.1 (.Integer64 i64max) (.Integer64 1) i64max 1
        (by decide) (by decide) rfl rfl).1 (by decide)⟩

/-- C5 counterexample: the claim says `%=` widens integer operands of any
(not necessarily equal) widths and computes the integer remainder, so that
`Integer8(5) %= Integer16(3)` yields the integer value 2.  The code only
has integer arms for same-width pairs: the mixed-width pair falls to the
float fallback and yields `Float32(2.0)`, not an integer variant. -/
theorem c5_counterexample :
    Number.rem_assign (.Integer8 5) (.Integer16 3) = some (.Float32 (.finite ⟨2, 1⟩)) ∧
    (Number.Float32 (.finite ⟨2, 1⟩)).isIntVar = false ∧
    Number.rem_assign (.Integer8 5) (.Integer16 3) ≠ some (Number.from_int 2) :=
  ⟨by decide, by decide, by decide⟩

/-- C5 amended: only same-width integer pairs take the widened integer
remainder path (renormalized through `from_int`); integer pairs of
different widths fall to the float fallback, which yields NaN for a
zero-widening divisor and otherwise `from_float` of the `f64` remainder —
so `Integer8(5) %= Integer16(3)` is `Float32(2.0)`. -/
theorem c5_rem_assign_paths :
    (∀ x y : ℤ, -128 ≤ x → x ≤ 127 → -128 ≤ y → y ≤ 127 → y ≠ 0 →
        Number.rem_assign (.Integer8 x) (.Integer8 y) =
          some (Number.from_int (Int.tmod x y))) ∧
    (∀ x y : ℤ, -32768 ≤ x → x ≤ 32767 → -32768 ≤ y → y ≤ 32767 → y ≠ 0 →
        Number.rem_assign (.Integer16 x) (.Integer16 y) =
          some (Number.from_int (Int.tmod x y))) ∧
    (∀ x y : ℤ, -2147483648 ≤ x → x ≤ 2147483647 → -2147483648 ≤ y →
        y ≤ 2147483647 → y ≠ 0 →
        Number.rem_assign (.Integer32 x) (.Integer32 y) =
          some (Number.from_int (Int.tmod x y))) ∧
    (∀ x y : ℤ, inI64 x → inI64 y → y ≠ 0 → ¬(x = i64min ∧ y = -1) →
        Number.rem_assign (.Integer64 x) (.Integer64 y) =
          some (Number.from_int (Int.tmod x y))) ∧
    (∀ a b : Number, a.isIntVar = true → b.isIntVar = true →
        a.widthOf ≠ b.widthOf →
        Number.rem_assign a b =
          (if feq b.to_f64 (.zero false) then some Number.NaN
           else some (Number.from_float (frem f64fmt a.to_f64 b.to_f64)))) ∧
    Number.rem_assign (.Integer8 5) (.Integer16 3) = some (.Float32 (.finite ⟨2, 1⟩)) := by
  refine ⟨?_, ?_, ?_, ?_, ?_, by decide⟩
  · intro x y hx1 hx2 hy1 hy2 hy
    have hne : ¬(x = i64min ∧ y = -1) := by unfold i64min; omega
    simp [Number.rem_assign, Number.is_nan, Number.is_infinite, i64remChk, hy, hne]
  · intro x y hx1 hx2 hy1 hy2 hy
    have hne : ¬(x = i64min ∧ y = -1) := by unfold i64min; omega
    simp [Number.rem_assign, Number.is_nan, Number.is_infinite, i64remChk, hy, hne]
  · intro x y hx1 hx2 hy1 hy2 hy
    have hne : ¬(x = i64min ∧ y = -1) := by unfold i64min; omega
    simp [Number.rem_assign, Number.is_nan, Number.is_infinite, i64remChk, hy, hne]
  · intro x y hx hy hy0 hne
    simp [Number.rem_assign, Number.is_nan, Number.is_infinite, i64remChk, hy0, hne]
  · intro a b ha hb hw
    cases a <;> cases b <;> simp only [Number.isIntVar] at ha hb <;>
      first
      | exact Bool.noConfusion ha
      | exact Bool.noConfusion hb
      | exact absurd rfl hw
      | rfl

/-- Witness for C5: a same-width pair takes the integer path and the
mixed-width pair `Integer8(5), Integer16(3)` takes the float fallback. -/
theorem c5_witness :
    Number.rem_assign (.Integer8 5) (.Integer8 3) = some (Number.from_int (Int.tmod 5 3)) ∧
      Number.rem_assign (.Integer64 7) (.Integer64 (-4)) =
        some (Number.from_int (Int.tmod 7 (-4))) ∧
      Number.rem_assign (.Integer8 5) (.Integer16 3) =
        (if feq (Number.Integer16 3).to_f64 (.zero false) then some Number.NaN
         else some (Number.from_float
           (frem f64fmt (Number.Integer8 5).to_f64 (Number.Integer16 3).to_f64))) :=
  ⟨c5_rem_assign_paths.1 5 3 (by decide) (by decide) (by decide) (by decide) (by decide),
   c5_rem_assign_paths.2.2.2.1 7 (-4) (by decide) (by decide) (by decide) (by decide),
   c5_rem_assign_paths.2.2.2.2.1 (.Integer8 5) (.Integer16 3) rfl rfl (by decide)⟩

theorem feq_zero_left (t : Bool) : feq (.zero t) (.zero false) = true := by
  cases t <;> rfl

theorem from_float_inf (t : Bool) : Number.from_float (.inf t) = .Float64 (.inf t) := by
  cases t <;> rfl

theorem fdiv_by_zero_inf (af : Fl) (t : Bool) (h1 : af ≠ .nan)
    (h2 : feq af (.zero false) = false) :
    fdiv f64fmt af (.zero t) = .inf (xor af.signB t) := by
  cases af with
  | nan => exact absurd rfl h1
  | zero s => rw [feq_zero_left] at h2; exact Bool.noConfusion h2
  | finite q => rfl
  | inf s => rfl

theorem is_finite_split (a : Number) (h : a.is_finite = true) :
    a.is_nan = false ∧ a.is_infinite = false := by
  unfold Number.is_finite at h
  cases hn : a.is_nan <;> cases hi : a.is_infinite <;>
    rw [hn, hi] at h <;> simp_all

theorem intVal_to_f64 (a : Number) (x : ℤ) (h : a.intVal = some x) :
    a.to_f64 = intToF64 x := by
  cases a <;> simp_all [Number.intVal, Number.to_f64]

theorem zeroValued_shape (b : Number) (h : b.zeroValued = true) :
    b.is_nan = false ∧ b.is_infinite = false ∧
      ∃ t, b.to_f64 = .zero t ∧ (b.intVal = none ∨ b.intVal = some 0) := by
  cases b with
  | Integer64 v =>
    simp only [Number.zeroValued, beq_iff_eq] at h
    subst h
    exact ⟨rfl, rfl, false, by decide, Or.inr rfl⟩
  | Integer32 v =>
    simp only [Number.zeroValued, beq_iff_eq] at h
    subst h
    exact ⟨rfl, rfl, false, by decide, Or.inr rfl⟩
  | Integer16 v =>
    simp only [Number.zeroValued, beq_iff_eq] at h
    subst h
    exact ⟨rfl, rfl, false, by decide, Or.inr rfl⟩
  | Integer8 v =>
    simp only [Number.zeroValued, beq_iff_eq] at h
    subst h
    exact ⟨rfl, rfl, false, by decide, Or.inr rfl⟩
  | Float64 v =>
    cases v with
    | zero s => exact ⟨rfl, rfl, s, rfl, Or.inl rfl⟩
    | finite q => exact Bool.noConfusion h
    | inf s => exact Bool.noConfusion h
    | nan => exact Bool.noConfusion h
  | Float32 v =>
    cases v with
    | zero s => exact ⟨rfl, rfl, s, rfl, Or.inl rfl⟩
    | finite q => exact Bool.noConfusion h
    | inf s => exact Bool.noConfusion h
    | nan => exact Bool.noConfusion h
  | PositiveInfinity => exact Bool.noConfusion h
  | NegativeInfinity => exact Bool.noConfusion h
  | NaN => exact Bool.noConfusion h

theorem div_zero_shape (a b : Number) (t : Bool)
    (hna : a.is_nan = false) (hia : a.is_infinite = false)
    (hnz : feq a.to_f64 (.zero false) = false)
    (hnb : b.is_nan = false) (hib : b.is_infinite = false)
    (hbf : b.to_f64 = .zero t)
    (hbi : b.intVal = none ∨ b.intVal = some 0) :
    Number.div a b = some (Number.from_float (fdiv f64fmt a.to_f64 b.to_f64)) := by
  unfold Number.div
  rw [hna, hnb]
  simp only [Bool.or_self, Bool.false_or, if_false, Bool.false_eq_true, ite_false]
  rw [hbf, feq_zero_left, hnz]
  simp only [Bool.true_and, Bool.false_eq_true, ite_false, hia, Bool.false_and]
  rcases hbi with hbi | hbi
  · cases hai : a.intVal with
    | none => rw [hbi]
    | some x => rw [hbi]
  · cases hai : a.intVal with
    | none => rw [hbi]
    | some x =>
      rw [hbi]
      simp only [ne_eq, not_true_eq_false, Bool.false_eq_true, ite_false, if_false]
      rw [intVal_to_f64 a x hai, (intVal_to_f64 b 0 hbi).symm.trans hbf]

/-- C10: dividing a nonzero finite `Number` by a zero-valued operand (an
integer variant holding 0 or a float variant holding an IEEE signed zero)
yields a `Number` that is infinite, but as a `Float64` variant carrying an
IEEE infinity whose sign is the IEEE quotient sign — not the
`PositiveInfinity`/`NegativeInfinity` special variants. -/
theorem c10_div_by_zero :
    ∀ a b : Number, a.is_finite = true → feq a.to_f64 (.zero false) = false →
      b.zeroValued = true →
      Number.div a b = some (.Float64 (fdiv f64fmt a.to_f64 b.to_f64)) ∧
      fdiv f64fmt a.to_f64 b.to_f64 = .inf (xor a.to_f64.signB b.to_f64.signB) ∧
      (Number.Float64 (fdiv f64fmt a.to_f64 b.to_f64)).is_infinite = true ∧
      Number.div a b ≠ some .PositiveInfinity ∧
      Number.div a b ≠ some .NegativeInfinity := by
  intro a b hfin hnz hzb
  obtain ⟨hna, hia⟩ := is_finite_split a hfin
  obtain ⟨hnb, hib, t, hbf, hbi⟩ := zeroValued_shape b hzb
  have hdiv := div_zero_shape a b t hna hia hnz hnb hib hbf hbi
  have hafn : a.to_f64 ≠ .nan := Number.to_f64_ne_nan a hna
  have hinf : fdiv f64fmt a.to_f64 b.to_f64 = .inf (xor a.to_f64.signB b.to_f64.signB) := by
    rw [hbf]
    exact fdiv_by_zero_inf a.to_f64 t hafn hnz
  refine ⟨?_, hinf, ?_, ?_, ?_⟩
  · rw [hdiv, hinf, from_float_inf]
  · rw [hinf]
    rfl
  · rw [hdiv, hinf, from_float_inf]
    simp
  · rw [hdiv, hinf, from_float_inf]
    simp

/-- Witness for C10 at `Integer8(1) / Integer8(0)`: the quotient is the
`Float64` positive infinity. -/
theorem c10_witness :
    (Number.Integer8 1).is_finite = true ∧
      Number.div (.Integer8 1) (.Integer8 0) =
        some (.Float64 (fdiv f64fmt (Number.Integer8 1).to_f64 (Number.Integer8 0).to_f64)) :=
  ⟨by decide,
    (c10_div_by_zero (.Integer8 1) (.Integer8 0) (by decide) (by decide) (by decide)).1⟩

/-- C4 counterexample: the claim says `From<u64>` is value-preserving with
values above `i64::MAX` produced as floating point.  At `2^63` the code
performs the wrapping `as i64` cast and then `from_int`, yielding
`Integer64(i64::MIN)` — a wrapped integer variant, not a float, and not
the value `2^63`. -/
theorem c4_counterexample :
    Number.fromU64 9223372036854775808 = .Integer64 (-9223372036854775808) ∧
    (Number.fromU64 9223372036854775808).isIntVar = true ∧
    Number.beq (Number.fromU64 9223372036854775808)
      (.Float64 (.finite ⟨9223372036854775808, 1⟩)) = false :=
  ⟨by decide, by decide, by decide⟩

/-- C4 amended: `From<u64>` is total and routes through `from_int`, but
first reinterprets the bits as `i64` (a wrapping cast): the value is
preserved exactly for inputs up to `i64::MAX`, while larger inputs wrap to
`value - 2^64` and are produced as (negative) integer variants, not as
floating point. -/
theorem c4_from_u64_wraps :
    ∀ v : ℤ, 0 ≤ v → v < 18446744073709551616 →
      Number.fromU64 v = Number.from_int (Number.u64AsI64 v) ∧
      (v ≤ i64max → (Number.fromU64 v).intVal = some v) ∧
      (i64max < v → (Number.fromU64 v).intVal = some (v - 18446744073709551616) ∧
        (Number.fromU64 v).isIntVar = true) := by
  intro v h0 h1
  refine ⟨rfl, ?_, ?_⟩
  · intro hle
    unfold i64max at hle
    have hw : Number.u64AsI64 v = v := by
      unfold Number.u64AsI64
      rw [Int.emod_eq_of_lt h0 h1]
      exact if_pos (by omega)
    unfold Number.fromU64
    rw [hw]
    exact Number.from_int_intVal v
  · intro hlt
    unfold i64max at hlt
    have hw : Number.u64AsI64 v = v - 18446744073709551616 := by
      unfold Number.u64AsI64
      rw [Int.emod_eq_of_lt h0 h1]
      exact if_neg (by omega)
    unfold Number.fromU64
    rw [hw]
    exact ⟨Number.from_int_intVal _, Number.from_int_isInt _⟩

/-- Witness for C4 at `v = 2^63`: the conversion wraps to the negative
integer `2^63 - 2^64 = i64::MIN` and stays an integer variant. -/
theorem c4_witness :
    (0 : ℤ) ≤ 9223372036854775808 ∧
      ((Number.fromU64 9223372036854775808).intVal =
          some (9223372036854775808 - 18446744073709551616) ∧
        (Number.fromU64 9223372036854775808).isIntVar = true) :=
  ⟨by decide,
    (c4_from_u64_wraps 9223372036854775808 (by decide) (by decide)).2.2 (by decide)⟩

theorem trimL_append_space (l : List Char) :
    trimL (l ++ [' ']) = if trimL l = [] then [] else trimL l ++ [' '] := by
  induction l with
  | nil => decide
  | cons c t ih =>
    by_cases h : isWs c = true
    · simpa [trimL, List.dropWhile_cons, h] using ih
    · simp [trimL, List.dropWhile_cons, h]

theorem trimR_append_space (l : List Char) : trimR (l ++ [' ']) = trimR l := by
  unfold trimR
  rw [List.reverse_append]
  simp [List.dropWhile_cons, (by decide : isWs ' ' = true)]

theorem trim_pad (l : List Char) : trimChars (' ' :: l ++ [' ']) = trimChars l := by
  unfold trimChars
  have h1 : trimL (' ' :: (l ++ [' '])) = trimL (l ++ [' ']) := by
    simp [trimL, List.dropWhile_cons, (by decide : isWs ' ' = true)]
  simp only [List.cons_append]
  rw [h1, trimL_append_space]
  by_cases h : trimL l = []
  · rw [if_pos h, h]
  · rw [if_neg h, trimR_append_space]

/-- C3 counterexample: the claim says trimming applies to numeric literals
too, so that `parse(" 42 ")` succeeds and equals `parse("42")`.  The code
trims and lowercases only for the special-token match; the numeric
fallbacks parse the original string, whose surrounding whitespace makes
both the `i64` and the `f64` parse fail, so `parse(" 42 ")` is an error
while `parse("42")` is `Integer8(42)`. -/
theorem c3_counterexample :
    parseChars [' ', '4', '2', ' '] = .error "cannot parse as number:  42 " ∧
    parseChars ['4', '2'] = .ok (.Integer8 42) ∧
    parseChars [' ', '4', '2', ' '] ≠ parseChars ['4', '2'] :=
  ⟨by decide, by decide, by decide⟩

/-- C3 amended: `parse` trims whitespace and lowercases only when
recognizing the special tokens, so whitespace padding is tolerated exactly
for inputs recognized as special tokens; numeric literals are parsed from
the original string and fail with surrounding whitespace (`parse(" 42 ")`
errors while `parse("42")` succeeds). -/
theorem c3_trim_only_for_tokens :
    (∀ l : List Char, specialTok (lowerStr (trimChars l)) = true →
        parseChars (' ' :: l ++ [' ']) = parseChars l) ∧
    parseChars [' ', '4', '2', ' '] = .error "cannot parse as number:  42 " ∧
    parseChars ['4', '2'] = .ok (.Integer8 42) := by
  refine ⟨?_, by decide, by decide⟩
  intro l h
  unfold parseChars
  rw [trim_pad]
  by_cases h1 : lowerStr (trimChars l) ∈ posTokens
  · rw [if_pos h1, if_pos h1]
  · by_cases h2 : lowerStr (trimChars l) ∈ negTokens
    · rw [if_neg h1, if_neg h1, if_pos h2, if_pos h2]
    · by_cases h3 : lowerStr (trimChars l) = ['n', 'a', 'n']
      · rw [if_neg h1, if_neg h1, if_neg h2, if_neg h2, if_pos h3, if_pos h3]
      · exfalso
        unfold specialTok at h
        simp [h1, h2, h3] at h

/-- Witness for C3 at `"INF"`: the token hypothesis holds and padding the
input with spaces does not change the parse. -/
theorem c3_witness :
    specialTok (lowerStr (trimChars ['I', 'N', 'F'])) = true ∧
      parseChars (' ' :: ['I', 'N', 'F'] ++ [' ']) = parseChars ['I', 'N', 'F'] :=
  ⟨by decide, c3_trim_only_for_tokens.1 ['I', 'N', 'F'] (by decide)⟩

theorem roundFl_shape (f : FpFmt) (q : Q) :
    (∃ s, roundFl f q = .zero s) ∨ (∃ p, roundFl f q = .finite p) ∨
      (∃ s, roundFl f q = .inf s) := by
  unfold roundFl
  dsimp only
  split
  · exact Or.inl ⟨false, rfl⟩
  · split
    · exact Or.inl ⟨_, rfl⟩
    · split
      · exact Or.inr (Or.inr ⟨_, rfl⟩)
      · exact Or.inr (Or.inl ⟨_, rfl⟩)

/-- When `from_float` receives a finite float datum, the constructed
`Number` is finite: the `Float32` branch cannot carry an infinity, because
an infinite round-trip makes the closeness test false. -/
theorem from_float_finite (v : Fl) (h : v.isFiniteB = true) :
    (Number.from_float v).is_finite = true := by
  cases v with
  | nan => exact Bool.noConfusion h
  | inf s => exact Bool.noConfusion h
  | zero s => cases s <;> decide
  | finite q =>
    have hun : Number.from_float (.finite q) =
        (if fltB (Fl.fabs (fsub f64fmt (roundFl f32fmt q) (.finite q))) f64EPS &&
            (Fl.finite q).isFiniteB
         then Number.Float32 (roundFl f32fmt q) else Number.Float64 (.finite q)) := rfl
    rw [hun]
    rcases roundFl_shape f32fmt q with ⟨s, hs⟩ | ⟨p, hp⟩ | ⟨s, hs⟩
    · rw [hs]
      cases hc : fltB (Fl.fabs (fsub f64fmt (Fl.zero s) (Fl.finite q))) f64EPS <;>
        simp [hc, Number.is_finite, Number.is_nan, Number.is_infinite, Fl.isNanB,
          Fl.isInfB, Fl.isFiniteB]
    · rw [hp]
      cases hc : fltB (Fl.fabs (fsub f64fmt (Fl.finite p) (Fl.finite q))) f64EPS <;>
        simp [hc, Number.is_finite, Number.is_nan, Number.is_infinite, Fl.isNanB,
          Fl.isInfB, Fl.isFiniteB]
    · rw [hs]
      have hcond : fltB (Fl.fabs (fsub f64fmt (Fl.inf s) (Fl.finite q))) f64EPS = false := rfl
      simp [hcond, Number.is_finite, Number.is_nan, Number.is_infinite, Fl.isNanB,
        Fl.isInfB, Fl.isFiniteB]

/-- C8 counterexample: the claim says a successful parse that is not a
special token is always finite.  `"+nan"` is not a special token of
`parse` (only the exact lowercase-trimmed `"nan"` is), the `i64` parse
fails, and Rust's `f64` parser accepts it as NaN, which `from_float`
wraps as a `Float64` NaN payload — a non-finite, non-special result. -/
theorem c8_counterexample :
    parseChars ['+', 'n', 'a', 'n'] = .ok (.Float64 .nan) ∧
    (Number.Float64 .nan).is_finite = false ∧
    (Number.Float64 .nan).isSpecial = false ∧
    (Number.Float64 .nan).is_nan = true :=
  ⟨by decide, by decide, by decide, by decide⟩

/-- C8 amended: every successful parse yields a special variant, a finite
`Number`, or a `from_float`-wrapped result of a non-finite `f64` parse —
the float fallback can produce `Float32`/`Float64` payloads carrying NaN
or an infinity exactly when the float parser itself returns a non-finite
value (as for `"+nan"` or the overflowing `"1e999"`). -/
theorem c8_parse_finite_or_nonfinite_float :
    ∀ (l : List Char) (n : Number), parseChars l = .ok n →
      n = .PositiveInfinity ∨ n = .NegativeInfinity ∨ n = .NaN ∨
      n.is_finite = true ∨
      ∃ f : Fl, parseF64Chars l = some f ∧ f.isFiniteB = false ∧
        n = Number.from_float f := by
  intro l n h
  unfold parseChars at h
  by_cases h1 : lowerStr (trimChars l) ∈ posTokens
  · rw [if_pos h1] at h
    exact Or.inl (Except.ok.inj h).symm
  · rw [if_neg h1] at h
    by_cases h2 : lowerStr (trimChars l) ∈ negTokens
    · rw [if_pos h2] at h
      exact Or.inr (Or.inl (Except.ok.inj h).symm)
    · rw [if_neg h2] at h
      by_cases h3 : lowerStr (trimChars l) = ['n', 'a', 'n']
      · rw [if_pos h3] at h
        exact Or.inr (Or.inr (Or.inl (Except.ok.inj h).symm))
      · rw [if_neg h3] at h
        cases hi : parseI64 l with
        | some v =>
          rw [hi] at h
          have hn : n = Number.from_int v := (Except.ok.inj h).symm
          exact Or.inr (Or.inr (Or.inr (Or.inl (hn ▸ Number.from_int_finite v))))
        | none =>
          rw [hi] at h
          cases hf : parseF64Chars l with
          | some f =>
            rw [hf] at h
            have hn : n = Number.from_float f := (Except.ok.inj h).symm
            cases hfin : f.isFiniteB with
            | true =>
              exact Or.inr (Or.inr (Or.inr (Or.inl (hn ▸ from_float_finite f hfin))))
            | false =>
              exact Or.inr (Or.inr (Or.inr (Or.inr ⟨f, rfl, hfin, hn⟩)))
          | none =>
            rw [hf] at h
            exact Except.noConfusion h

/-- Witness for C8 at `"42"`: the parse succeeds with `Integer8(42)` and
the disjunction holds (through finiteness). -/
theorem c8_witness :
    parseChars ['4', '2'] = .ok (.Integer8 42) ∧
      (Number.Integer8 42 = .PositiveInfinity ∨
        Number.Integer8 42 = .NegativeInfinity ∨
        Number.Integer8 42 = .NaN ∨
        (Number.Integer8 42).is_finite = true ∨
        ∃ f : Fl, parseF64Chars ['4', '2'] = some f ∧ f.isFiniteB = false ∧
          Number.Integer8 42 = Number.from_float f) :=
  ⟨by decide, c8_parse_finite_or_nonfinite_float ['4', '2'] (.Integer8 42) (by decide)⟩
